import Mathlib

/-!
Verification of the wave-preprocessing pipeline (`interface.py`) against its
specification.  The Python source is shallowly embedded below: pure numeric
code is translated to executable Lean functions over `ℚ` (machine floats are
idealised as exact rationals), Python integer arithmetic to `ℕ`/`ℤ` with
Python floor semantics, and fallible code to `Except`/`Option`.  Each claim
of the specification is then settled by a theorem about these definitions.
-/

/-! ## Generic list helpers mirroring Python slicing semantics -/

/-- Python slice `xs[:k]` for a possibly negative `k`: a negative bound counts
from the end of the list (`trimmed_data.iloc[:end_relative]` in
`save_trimmed_data`). -/
def pyTakeInt (k : ℤ) (xs : List α) : List α :=
  if 0 ≤ k then xs.take k.toNat else xs.take ((xs.length : ℤ) + k).toNat

/-- Split a list into consecutive chunks of size `c` (the last chunk may be
shorter), as `pd.read_csv(..., chunksize=c)` yields the body rows. -/
def chunksOf : ℕ → List α → List (List α)
  | _, [] => []
  | 0, _ :: _ => []
  | c + 1, x :: xs => (x :: xs).take (c + 1) :: chunksOf (c + 1) (xs.drop c)
termination_by _ xs => xs.length
decreasing_by
  simp only [List.length_drop, List.length_cons]
  omega

/-- Keep the elements whose global row index `i` (starting at `r`) satisfies
`i % step == 0` — the decimation predicate used by both subsampling paths. -/
def keepEvery (step : ℕ) : ℕ → List α → List α
  | _, [] => []
  | r, x :: xs => (if r % step = 0 then [x] else []) ++ keepEvery step (r + 1) xs

/-- The stride slice `xs.iloc[::s]`: the elements at indices `0, s, 2*s, …`
(`⌈n/s⌉` of them), as used to build the visualization sample in
`on_processing_finished` and `create_plot`. -/
def strideSample (xs : List α) (s : ℕ) : List α :=
  (List.range ((xs.length + s - 1) / s)).filterMap (fun k => xs[k * s]?)

/-- In-memory subsampler (`on_processing_finished`): datasets no longer than
the target are kept unchanged (step 1); otherwise `step = len // target` and
the stride slice `iloc[::step]` is taken.  Returns the sample and the step. -/
def subsampleInMemory (xs : List α) (target : ℕ) : List α × ℕ :=
  if xs.length ≤ target then (xs, 1)
  else (strideSample xs (xs.length / target), xs.length / target)

/-- Process a list of chunks, keeping the rows whose global index (tracked by
the running counter `r`) satisfies the decimation predicate. -/
def sampleChunks (step : ℕ) : ℕ → List (List α) → List α
  | _, [] => []
  | r, ch :: rest => keepEvery step r ch ++ sampleChunks step (r + ch.length) rest

/-- Chunked streaming subsampler (`main`, checkpoint 1): `sample_step =
max(1, total // target)`, the body is processed in chunks of `c` rows, and a
row is kept iff its global index satisfies `i % sample_step == 0`. -/
def chunkedSample (xs : List α) (target c : ℕ) : List α :=
  sampleChunks (max 1 (xs.length / target)) 0 (chunksOf c xs)

/-- Concrete ten-row dataset used to instantiate the C2 theorem. -/
def c2list : List ℕ := [0, 1, 2, 3, 4, 5, 6, 7, 8, 9]

/-! ## Manual trim resolver (`ManualRemovalWindow.save_trimmed_data`) -/

/-- Resolve a cut from the visualization index domain to the full-resolution
domain: `subsample_step = len(full) // len(viz)` and `full_index =
viz_index * subsample_step`.  A user click takes precedence over the
automatically detected leg boundary; with neither, the cut is absent. -/
def resolveFullIdx (fullLen vizLen : ℕ) (cut auto : Option ℕ) : Option ℕ :=
  let step := fullLen / vizLen
  match cut with
  | some v => some (v * step)
  | none =>
    match auto with
    | some a => some (a * step)
    | none => none

/-- Apply the beginning/ending cuts to the full dataset: `trimmed =
full.iloc[b:]`; when an ending cut is present the code reads
`trimmed.index[0]` (the first retained original row index — reading it from
an empty frame raises, the `.error` branch) and applies
`trimmed.iloc[:e - index0]` with Python slice semantics, where a negative
bound counts from the end of the frame. -/
def applyCuts (full : List α) (b e : Option ℕ) : Except String (List α) :=
  let t1 := match b with
    | some i => full.drop i
    | none => full
  match e with
  | none => .ok t1
  | some ei =>
    match t1 with
    | [] => .error "single positional indexer is out-of-bounds"
    | _ :: _ => .ok (pyTakeInt ((ei : ℤ) - ((b.getD 0 : ℕ) : ℤ)) t1)

/-- The half-open row interval `[a, b)` named by the specification. -/
def sliceHalfOpen (full : List α) (a b : ℕ) : List α := (full.drop a).take (b - a)

/-- Ten distinct canonical rows; a visualization sample of the same length
gives subsample step `10 / 10 = 1`, so viz cut indices map to themselves. -/
def c6full : List ℕ := [0, 1, 2, 3, 4, 5, 6, 7, 8, 9]

/-! ## Zero-mean normalizer (`process_zero_mean`) -/

/-- A row of the trimmed dataset: timestamp, pressure and reading number as
read back from `Step2_Initial_Cut.csv`. -/
structure ZRow where
  ts : ℚ
  pressure : ℚ
  reading : ℕ
deriving DecidableEq

/-- `Avg_Depth_FullRec`: the arithmetic mean of all pressure values. -/
def avgDepthFullRec (rows : List ZRow) : ℚ :=
  ((rows.map ZRow.pressure).sum) / rows.length

/-- The zero-mean dataset: every pressure value reduced by
`avg_depth_full_rec`; timestamps and reading numbers are copied unchanged. -/
def zeroMeanData (rows : List ZRow) : List ZRow :=
  rows.map (fun r => { r with pressure := r.pressure - avgDepthFullRec rows })

/-- Per-reading averages (`Parameters.csv`): mean pressure grouped by reading
number, over the pre-normalization values, in ascending reading order. -/
def readingAverages (rows : List ZRow) : List (ℕ × ℚ) :=
  ((rows.map ZRow.reading).dedup.mergeSort (· ≤ ·)).map
    (fun g => (g, avgDepthFullRec (rows.filter (fun r => r.reading = g))))

/-! ## Timeseries assembler (`ProcessingThread.run`, steps 3-7) -/

/-- A floating-point cell: an ordinary finite value (idealised as an exact
rational) or the NaN placeholder that `np.genfromtxt` inserts for entries it
cannot convert. -/
inductive FloatVal where
  | nan
  | val (q : ℚ)
deriving DecidableEq

/-- A canonical dataset row: synthetic timestamp (milliseconds since the
recording start date at midnight — the calendar origin does not affect any
property below), pressure sample, and 1-based reading number. -/
structure CRow where
  ts : ℚ
  pressure : FloatVal
  reading : ℕ
deriving DecidableEq

/-- The timestamp axis generated by `pd.date_range(start, periods, freq)`:
`periods` instants spaced by `deltaMs` milliseconds, measured from the start
instant. -/
def dateRangeQ (periods : ℕ) (deltaMs : ℚ) : List ℚ :=
  (List.range periods).map (fun (k : ℕ) => (k : ℚ) * deltaMs)

/-- TimeseriesAssembler: truncate the concatenated samples to whole readings
of `points_per_reading = sensor_frequency * 1200` samples, attach the
repeated reading numbers `1,…,1,2,…,2,…` and the synthetic timestamp axis
spaced `1000/frequency` milliseconds. -/
def assembleData (allData : List FloatVal) (freq : ℕ) : List CRow :=
  let ppr := freq * 1200
  let ncr := allData.length / ppr
  let truncated := allData.take (ncr * ppr)
  let readings := (List.range ncr).flatMap (fun j => List.replicate ppr (j + 1))
  let ts := dateRangeQ truncated.length (1000 / (freq : ℚ))
  List.zipWith (fun tp r => ⟨tp.1, tp.2, r⟩) (ts.zip truncated) readings

/-- Concrete sample array for the C7 witness: 2,400 zero samples at 1 Hz form
two whole readings of 1,200 rows. -/
def c7data : List FloatVal := List.replicate 2400 (FloatVal.val 0)

/-! ## File ingestion and metadata recovery (`read_data_file`,
`read_info_file`, `ProcessingThread.run`) -/

/-- Python `str.strip()`: drop whitespace on both ends (expressed on the
character list so that it evaluates by structural recursion). -/
def stripChars (s : String) : List Char :=
  ((s.data.dropWhile Char.isWhitespace).reverse.dropWhile Char.isWhitespace).reverse

/-- The numeric value of a digit run. -/
def digitsVal (l : List Char) : ℕ := l.foldl (fun a c => a * 10 + (c.toNat - 48)) 0

/-- Modelled from the library: the float conversion applied by
`np.genfromtxt` to a single cell — an optional minus sign, an integer part
and an optional fractional part separated by a dot.  Scientific notation and
the special values are omitted; no theorem below exercises them.  A comma is
not accepted, exactly as in the library. -/
def parseFloatChars (cs : List Char) : Option ℚ :=
  let neg := match cs with
    | '-' :: _ => true
    | _ => false
  let body := match cs with
    | '-' :: rest => rest
    | _ => cs
  let intPart := body.takeWhile Char.isDigit
  let rest := body.dropWhile Char.isDigit
  let sign : ℚ := if neg then -1 else 1
  match rest with
  | [] =>
    if intPart.isEmpty then none
    else some (sign * (digitsVal intPart : ℚ))
  | '.' :: frac =>
    if frac.all Char.isDigit && !(intPart.isEmpty && frac.isEmpty) then
      some (sign * ((digitsVal intPart : ℚ) + (digitsVal frac : ℚ) / (10 : ℚ) ^ frac.length))
    else none
  | _ => none

/-- Modelled from the library: `np.genfromtxt(path, delimiter='\n')` reads
one value per non-blank line; a cell that does not convert to a float is not
an error — it is silently replaced by the NaN filling value. -/
def genfromtxtQ (lines : List String) : List FloatVal :=
  ((lines.map stripChars).filter (fun l => !l.isEmpty)).map
    (fun l => match parseFloatChars l with
      | some q => FloatVal.val q
      | none => FloatVal.nan)

/-- A raw data file as dispatched by `read_data_file` on the path suffix:
a binary `.npy` array, a `.dat`/`.txt` text file, or a file with any other
extension. -/
inductive RawFile where
  | npy (vals : List ℚ)
  | text (lines : List String)
  | other (ext : String)

/-- `ProcessingThread.read_data_file`: `.npy` loads the serialized array;
text files go through the bulk `np.genfromtxt` parse, which NaN-fills
unconvertible cells rather than raising, so the manual comma-replacing
fallback is not reached; any other extension raises `ValueError`. -/
def readDataFileE : RawFile → Except String (List FloatVal)
  | .npy vs => .ok (vs.map FloatVal.val)
  | .text ls => .ok (genfromtxtQ ls)
  | .other e => .error ("Unsupported file format: " ++ e)

/-- Numeric value of a two-digit field. -/
def twoDigitVal (a b : Char) : ℕ := (a.toNat - 48) * 10 + (b.toNat - 48)

/-- Modelled from `datetime.strptime` with format `%Y.%m.%d %H:%M:%S.%f` on
zero-padded headers: four year digits, dotted two-digit month and day, a
space, colon-separated two-digit hour, minute and second, then a dot and six
microsecond digits, with in-range field values. -/
def matchesDateTime (cs : List Char) : Bool :=
  match cs with
  | [y1, y2, y3, y4, c1, m1, m2, c2, d1, d2, c3, h1, h2, c4, n1, n2, c5, e1, e2, c6,
     u1, u2, u3, u4, u5, u6] =>
    [y1, y2, y3, y4, m1, m2, d1, d2, h1, h2, n1, n2, e1, e2,
     u1, u2, u3, u4, u5, u6].all Char.isDigit
    && (c1 == '.') && (c2 == '.') && (c3 == ' ') && (c4 == ':') && (c5 == ':')
    && (c6 == '.')
    && decide (1 ≤ twoDigitVal m1 m2) && decide (twoDigitVal m1 m2 ≤ 12)
    && decide (1 ≤ twoDigitVal d1 d2) && decide (twoDigitVal d1 d2 ≤ 31)
    && decide (twoDigitVal h1 h2 ≤ 23) && decide (twoDigitVal n1 n2 ≤ 59)
    && decide (twoDigitVal e1 e2 ≤ 59)
  | _ => false

/-- First embedded run of digits in a line (`re.findall(r'\d+', line)[0]`). -/
def firstNat (s : String) : Option ℕ :=
  let ds := (s.data.dropWhile (fun c => !c.isDigit)).takeWhile Char.isDigit
  if ds.isEmpty then none
  else some (ds.foldl (fun a c => a * 10 + (c.toNat - 48)) 0)

/-- One header date line of `read_info_file`: strip, silently yield `None`
when empty or not digit-leading, otherwise `strptime` — which raises on a
pattern mismatch (the `.error`), aborting the enclosing `try` block. -/
def parseDateLine (line : String) : Except Unit (Option (List Char)) :=
  match stripChars line with
  | [] => .ok none
  | c :: rest =>
    if !c.isDigit then .ok none
    else if matchesDateTime (c :: rest) then .ok (some (c :: rest)) else .error ()

/-- Date recovery over the fixed header lines 5 and 7 (zero-based).  Both
parses share a single `try`, so a failure on line 5 also skips line 7; the
exception handler emits a warning (the returned flag) and the run
continues. -/
def readDates (lines : List String) : Option (List Char) × Option (List Char) × Bool :=
  match (if 5 < lines.length then parseDateLine (lines.getD 5 "") else .ok none) with
  | .error _ => (none, none, true)
  | .ok d1 =>
    match (if 7 < lines.length then parseDateLine (lines.getD 7 "") else .ok none) with
    | .error _ => (d1, none, true)
    | .ok d2 => (d1, d2, false)

/-- Frequency recovery of `read_info_file`: the first integer embedded in
header line 2 (zero-based), defaulting to 8 when absent. -/
def readFreq (lines : List String) : ℕ :=
  match (if 2 < lines.length then firstNat (lines.getD 2 "") else none) with
  | some k => k
  | none => 8

/-- Outcome of one ingestion run: `finished(True, df)` with the assembled
rows, `finished(False, None)` with an error message, or a silent return
after the stop flag was observed. -/
inductive Outcome where
  | success (rows : List CRow)
  | failure (msg : String)
  | cancelled

/-- Discriminator for the failure outcome: `true` exactly when the run ended
in `finished(False, None)` with an error message. -/
def isFailure : Outcome → Bool
  | .failure _ => true
  | _ => false

/-- Result of the file-loading loop: the progress events emitted so far plus
the loaded arrays, or a failure, or a cancellation. -/
inductive LoadRes where
  | ok (trace : List (ℕ × String)) (data : List (List FloatVal))
  | fail (trace : List (ℕ × String)) (msg : String)
  | stopped (trace : List (ℕ × String))

/-- The per-file loop of `ProcessingThread.run`: the stop flag is polled
before each file and once more after the loop; each successfully read file
emits `(10 + int((i+1)/k*30), …)`; a read failure propagates to the
exception handler, which emits percentage 0. -/
def loadLoop (stop : ℕ → Bool) (k : ℕ) : List RawFile → ℕ → LoadRes
  | [], i => if stop i then .stopped [] else .ok [] []
  | f :: fs, i =>
    if stop i then .stopped [] else
    match readDataFileE f with
    | .error m => .fail [(0, "Error: " ++ m)] m
    | .ok d =>
      match loadLoop stop k fs (i + 1) with
      | .ok t ds => .ok ((10 + 30 * (i + 1) / k, "Loaded") :: t) (d :: ds)
      | .fail t m => .fail ((10 + 30 * (i + 1) / k, "Loaded") :: t) m
      | .stopped t => .stopped ((10 + 30 * (i + 1) / k, "Loaded") :: t)

/-- The checkpoint events of the success path after file loading. -/
def tailEvents : List (ℕ × String) :=
  [(45, "Combining data..."), (50, "Splitting into 20-min readings..."),
   (60, "Creating reading numbers..."), (70, "Generating timestamps..."),
   (85, "Creating DataFrame..."), (90, "Saving to CSV file..."),
   (100, "Complete!")]

/-- `ProcessingThread.run`, embedded end to end: the emitted
`(percent, message)` events plus the final outcome.  The failure points
follow the source: an unsupported extension raises inside the loop;
`np.concatenate` raises on an empty file list; `len // points_per_reading`
raises when the recovered frequency is 0; `datetime.combine(None, time())`
raises a `TypeError` when no start date was recovered.  Every exception
lands in the handler that emits percentage 0 and `finished(False, None)`.
File writes are modelled as always succeeding, and progress messages as
fixed strings — the claims below speak only about the percentages. -/
def runEmbed (infoLines : List String) (files : List RawFile) (stop : ℕ → Bool) :
    List (ℕ × String) × Outcome :=
  let d1 := (readDates infoLines).1
  let warned := (readDates infoLines).2.2
  let freq := readFreq infoLines
  let t0 := (5, "Reading INFO file...") ::
    ((if warned then [(0, "Warning: Could not parse dates")] else []) ++
      [(10, "Loading files...")])
  match loadLoop stop files.length files 0 with
  | .stopped t => (t0 ++ t, .cancelled)
  | .fail t m => (t0 ++ t, .failure m)
  | .ok t ds =>
    if files.length = 0 then
      (t0 ++ t ++ [(45, "Combining data..."),
        (0, "Error: need at least one array to concatenate")],
       .failure "need at least one array to concatenate")
    else if freq * 1200 = 0 then
      (t0 ++ t ++ [(45, "Combining data..."),
        (50, "Splitting into 20-min readings..."),
        (0, "Error: integer division or modulo by zero")],
       .failure "integer division or modulo by zero")
    else
      match d1 with
      | none =>
        (t0 ++ t ++ [(45, "Combining data..."),
          (50, "Splitting into 20-min readings..."),
          (60, "Creating reading numbers..."), (70, "Generating timestamps..."),
          (0, "Error: combine() argument 1 must be a date, not NoneType")],
         .failure "combine() argument 1 must be a date, not NoneType")
      | some _ => (t0 ++ t ++ tailEvents, .success (assembleData ds.flatten freq))

/-- Metadata file for the C3 evaluation: header line 5 (zero-based) starts
with a digit but does not match the strict date pattern. -/
def c3info : List String :=
  ["Logger", "Sensor", "Frequency 8 Hz", "Recording", "Start date:",
   "2bad date line", "End date:", "2bad date line"]

/-- A one-sample binary data file for the C3 evaluation. -/
def c3file : RawFile := RawFile.npy [mkRat 5 2]

/-- Metadata file for the C8 witness: a valid start date on header line 5
and the frequency on line 2; no warning is emitted. -/
def c8info : List String :=
  ["Logger", "Sensor", "8 Hz", "Recording", "Start:",
   "2020.01.02 03:04:05.000000"]

/-! ## Dive detector (`detect_dives` in `VisualizationWindow` and
`ManualRemovalWindow` — both bodies are identical) -/

/-- `np.gradient`: central differences in the interior, one-sided at the two
ends (the detector only calls it on arrays of at least 100 samples). -/
def gradientQ (p : List ℚ) : List ℚ :=
  let n := p.length
  if n < 2 then List.replicate n 0
  else (List.range n).map (fun i =>
    if i = 0 then p.getD 1 0 - p.getD 0 0
    else if i = n - 1 then p.getD (n - 1) 0 - p.getD (n - 2) 0
    else (p.getD (i + 1) 0 - p.getD (i - 1) 0) / 2)

/-- Population variance, the square of `np.std`.  Comparisons against
`grad_std = sqrt(variance)` are embedded as the equivalent comparisons of
squares, since square roots leave `ℚ`. -/
def popVarQ (xs : List ℚ) : ℚ :=
  ((xs.map (fun x => x ^ 2)).sum) / (xs.length : ℚ)
    - ((xs.sum) / (xs.length : ℚ)) ^ 2

/-- Scanner for `np.argmax`: running best value, best index, next index. -/
def argmaxGo (bv : ℚ) (bi i : ℕ) : List ℚ → ℕ
  | [] => bi
  | y :: ys => if bv < y then argmaxGo y i (i + 1) ys else argmaxGo bv bi (i + 1) ys

/-- `np.argmax`: index of the first maximal element (0 on the empty array). -/
def argmaxQ : List ℚ → ℕ
  | [] => 0
  | x :: xs => argmaxGo x 0 1 xs

/-- `gradient_abs[i] < grad_std`, embedded as `g[i]^2 < variance`. -/
def settledB (g : List ℚ) (v : ℚ) (i : ℕ) : Bool := decide ((g.getD i 0) ^ 2 < v)

/-- The settle scan of the beginning leg: `jump_end = max_jump_idx` before
the loop, then the first `i` in `range(j+1, min(j+100, search_end))` with a
settled gradient; when the loop finds nothing, `jump_end` stays `j`. -/
def codeJumpEnd (g : List ℚ) (v : ℚ) (j se : ℕ) : ℕ :=
  match (List.range' (j + 1) (min (j + 100) se - (j + 1))).find? (settledB g v) with
  | some i => i
  | none => j

/-- The trigger `max_jump_value > sensitivity * grad_std`, as squares (the
equivalence holds for the nonnegative sensitivity the program uses). -/
def beginTrigger (mx s v : ℚ) : Bool := decide (0 < mx) && decide (s ^ 2 * v < mx ^ 2)

/-- The beginning-leg search window `min(n // 3, 2000)`. -/
def beginSearchEnd (p : List ℚ) : ℕ := min (p.length / 3) 2000

/-- `max_jump_idx`: argmax of the gradient over the search window. -/
def beginJumpIdx (p : List ℚ) : ℕ := argmaxQ ((gradientQ p).take (beginSearchEnd p))

/-- The settle-scan result for the beginning leg. -/
def beginSettleEnd (p : List ℚ) : ℕ :=
  codeJumpEnd (gradientQ p) (popVarQ (gradientQ p)) (beginJumpIdx p) (beginSearchEnd p)

/-- Beginning-leg extent: `some end` when the trigger fires, where `end` is
the settle-scan result extended by `int(end * 0.1)` and capped at `n-1`. -/
def beginLegEnd? (p : List ℚ) (s : ℚ) : Option ℕ :=
  let bg := (gradientQ p).take (beginSearchEnd p)
  let mx := bg.getD (beginJumpIdx p) 0
  if beginTrigger mx s (popVarQ (gradientQ p)) then
    some (min (beginSettleEnd p + beginSettleEnd p / 10) (p.length - 1))
  else none

/-- Mean of a rational list (`np.mean`). -/
def meanQ (xs : List ℚ) : ℚ := xs.sum / (xs.length : ℚ)

/-- Ending-leg start: the first window offset whose next 50 samples all lie
below `0.3 * wave_mean` (the mean over the middle third), extended backward
by `int((n - drop_start) * 0.1)` and floored at 0. -/
def endLegStart? (p : List ℚ) : Option ℕ :=
  let n := p.length
  let ss := max (2 * n / 3) (n - 2000)
  let waveMean := meanQ ((p.drop (n / 3)).take (2 * n / 3 - n / 3))
  let lowT := waveMean * 3 / 10
  let sec := p.drop ss
  match (List.range (sec.length - 50)).find?
      (fun i => ((sec.drop i).take 50).all (fun x => decide (x < lowT))) with
  | none => none
  | some i => some (ss + i - (n - (ss + i)) / 10)

/-- `detect_dives`: an all-false mask below 100 samples; otherwise the union
of the beginning leg `[0, jump_end)` and the ending leg `[drop_start, n)`. -/
def detectDivesQ (p : List ℚ) (s : ℚ) : List Bool :=
  let n := p.length
  if n < 100 then List.replicate n false
  else
    let be := beginLegEnd? p s
    let ee := endLegStart? p
    (List.range n).map (fun i =>
      (match be with | some e => decide (i < e) | none => false) ||
      (match ee with | some d => decide (d ≤ i) | none => false))

/-- The C4 claim formula, written from the claim text: the leg end is the
first index in `(j, j+100]` capped at the window end (`search_end - 1`, the
last window index) where the gradient settles, defaulting to `j+100` capped
at the window end when no such index exists, then extended by
`round(0.1 * end)` (rounding half up) and capped at `n-1`. -/
def claimJumpEnd (g : List ℚ) (v : ℚ) (j se : ℕ) : ℕ :=
  let upper := min (j + 100) (se - 1)
  match (List.range' (j + 1) (upper + 1 - (j + 1))).find? (settledB g v) with
  | some i => i
  | none => upper

/-- The C4 claim formula for the final beginning-leg extent. -/
def claimBeginEnd? (p : List ℚ) (s : ℚ) : Option ℕ :=
  let bg := (gradientQ p).take (beginSearchEnd p)
  let mx := bg.getD (beginJumpIdx p) 0
  if beginTrigger mx s (popVarQ (gradientQ p)) then
    let e := claimJumpEnd (gradientQ p) (popVarQ (gradientQ p)) (beginJumpIdx p)
      (beginSearchEnd p)
    some (min (e + (e + 5) / 10) (p.length - 1))
  else none

/-- A 102-sample pressure trace: 5 zero samples, a jump to 100 followed by a
ramp of slope 10 up to 450 at index 40, then constant 450.  Its gradient has
its window maximum 55 at index 5, the trigger fires, and no index of the
settle scan has a settled gradient. -/
def p4cex : List ℚ :=
  List.replicate 5 0 ++ (List.range 36).map (fun (k : ℕ) => (100 : ℚ) + 10 * k)
    ++ List.replicate 61 450

/-! ## Lemmas and claim theorems -/

theorem keepEvery_append (step r : ℕ) (as bs : List α) :
    keepEvery step r (as ++ bs) =
      keepEvery step r as ++ keepEvery step (r + as.length) bs := by
  induction as generalizing r with
  | nil => simp [keepEvery]
  | cons x xs ih =>
    simp only [List.cons_append, keepEvery, List.append_eq, List.length_cons]
    have h : r + 1 + xs.length = r + (xs.length + 1) := by omega
    rw [ih (r + 1), List.append_assoc, h]

theorem keepEvery_congr_mod (step : ℕ) (r r' : ℕ) (hr : r % step = r' % step)
    (xs : List α) : keepEvery step r xs = keepEvery step r' xs := by
  induction xs generalizing r r' with
  | nil => rfl
  | cons x xs ih =>
    simp only [keepEvery, hr]
    rw [ih (r + 1) (r' + 1) (Nat.ModEq.add_right 1 hr)]

theorem keepEvery_one (r : ℕ) (xs : List α) : keepEvery 1 r xs = xs := by
  induction xs generalizing r with
  | nil => rfl
  | cons x xs ih => simp [keepEvery, ih, Nat.mod_one]

theorem keepEvery_shift (s : ℕ) (xs : List α) :
    ∀ r, 1 ≤ r → r ≤ s → keepEvery s r xs = keepEvery s 0 (xs.drop (s - r)) := by
  induction xs with
  | nil => intro r _ _; simp [keepEvery]
  | cons x xs ih =>
    intro r h1 h2
    rcases Nat.eq_or_lt_of_le h2 with heq | hlt
    · subst heq
      simp only [keepEvery, Nat.mod_self, Nat.sub_self, List.drop_zero, Nat.zero_mod,
        if_pos rfl]
      exact congrArg (fun l => [x] ++ l)
        (keepEvery_congr_mod r (r + 1) 1 (Nat.add_mod_left r 1) xs)
    · have hr : r % s = r := Nat.mod_eq_of_lt hlt
      have hne : r % s ≠ 0 := by rw [hr]; omega
      have hsub : s - r = (s - (r + 1)) + 1 := by omega
      simp only [keepEvery, if_neg hne, List.nil_append]
      rw [hsub, List.drop_succ_cons, ih (r + 1) (by omega) hlt]

theorem strideSample_nil (s : ℕ) : strideSample ([] : List α) s = [] := by
  unfold strideSample
  have h : (List.length ([] : List α) + s - 1) / s = 0 := by
    cases s with
    | zero => simp
    | succ n =>
      simp only [List.length_nil, Nat.zero_add, Nat.add_sub_cancel]
      exact Nat.div_eq_of_lt (by omega)
  rw [h]
  rfl

theorem strideSample_cons (x : α) (xs : List α) (s : ℕ) (hs : 1 ≤ s) :
    strideSample (x :: xs) s = x :: strideSample (xs.drop (s - 1)) s := by
  unfold strideSample
  have hlen : (x :: xs).length + s - 1 = xs.length + s := by
    simp only [List.length_cons]; omega
  have hdiv : (xs.length + s) / s = xs.length / s + 1 := Nat.add_div_right _ (by omega)
  have hdlen : ((xs.drop (s - 1)).length + s - 1) / s = xs.length / s := by
    rcases Nat.le_total (s - 1) xs.length with h | h
    · have he : (xs.drop (s - 1)).length + s - 1 = xs.length := by
        simp only [List.length_drop]; omega
      rw [he]
    · have h0 : (xs.drop (s - 1)).length = 0 := by simp only [List.length_drop]; omega
      rw [h0]
      have h1 : (0 + s - 1) / s = 0 := Nat.div_eq_of_lt (by omega)
      have h2 : xs.length / s = 0 := Nat.div_eq_of_lt (by omega)
      rw [h1, h2]
  rw [hlen, hdiv, hdlen, List.range_succ_eq_map]
  have hhead : (x :: xs)[0 * s]? = some x := by
    simp
  rw [List.filterMap_cons, hhead, List.filterMap_map]
  have hfun : ((fun k => (x :: xs)[k * s]?) ∘ fun i => i + 1)
      = fun k => (xs.drop (s - 1))[k * s]? := by
    funext k
    have harith : (k + 1) * s = (k * s + (s - 1)) + 1 := by
      have hm : (k + 1) * s = k * s + s := by ring
      omega
    simp only [Function.comp_apply]
    rw [harith, List.getElem?_cons_succ, List.getElem?_drop]
    congr 1
    omega
  rw [hfun]

theorem strideSample_eq_keepEvery (s : ℕ) (hs : 1 ≤ s) :
    ∀ xs : List α, strideSample xs s = keepEvery s 0 xs
  | [] => by rw [strideSample_nil]; rfl
  | x :: xs => by
    rw [strideSample_cons x xs s hs, strideSample_eq_keepEvery s hs (xs.drop (s - 1)),
      ← keepEvery_shift s xs 1 (Nat.le_refl 1) hs]
    simp [keepEvery, Nat.zero_mod]
termination_by xs => xs.length
decreasing_by
  simp only [List.length_drop, List.length_cons]
  omega

theorem sampleChunks_chunksOf (step c : ℕ) (hc : 1 ≤ c) :
    ∀ (xs : List α) (r : ℕ), sampleChunks step r (chunksOf c xs) = keepEvery step r xs
  | [], r => by
    simp only [chunksOf, sampleChunks, keepEvery]
  | x :: xs, r => by
    obtain ⟨c', rfl⟩ : ∃ c', c = c' + 1 := ⟨c - 1, by omega⟩
    simp only [chunksOf, sampleChunks]
    rw [sampleChunks_chunksOf step (c' + 1) hc (xs.drop c') _]
    conv_rhs => rw [← List.take_append_drop (c' + 1) (x :: xs)]
    rw [keepEvery_append, List.drop_succ_cons]
termination_by xs _ => xs.length
decreasing_by
  simp only [List.length_drop, List.length_cons]
  omega

/-- C2: subsampling is deterministic and path-independent.  If the dataset
length is at most the target it is returned unchanged with step 1; otherwise
`step = len // target` and exactly the records at global indices with
`index % step == 0` are kept, in original order; and the chunked streaming
path (chunks of `c` rows, same predicate on the global row index) produces
output identical to the in-memory path. -/
theorem claim_C2 (xs : List α) (target c : ℕ) (ht : 1 ≤ target) (hc : 1 ≤ c) :
    (xs.length ≤ target → subsampleInMemory xs target = (xs, 1)) ∧
    (target < xs.length →
      (subsampleInMemory xs target).2 = xs.length / target ∧
      (subsampleInMemory xs target).1 = keepEvery (xs.length / target) 0 xs) ∧
    chunkedSample xs target c = (subsampleInMemory xs target).1 := by
  have hstep : target < xs.length → 1 ≤ xs.length / target :=
    fun h => (Nat.one_le_div_iff (by omega)).mpr (Nat.le_of_lt h)
  refine ⟨fun h => by simp [subsampleInMemory, h], fun h => ?_, ?_⟩
  · have hnot : ¬ xs.length ≤ target := by omega
    constructor
    · simp [subsampleInMemory, hnot]
    · simp only [subsampleInMemory, if_neg hnot]
      exact strideSample_eq_keepEvery _ (hstep h) xs
  · unfold chunkedSample
    rw [sampleChunks_chunksOf _ c hc xs 0]
    by_cases h : xs.length ≤ target
    · have hdiv : xs.length / target ≤ 1 := by
        calc xs.length / target ≤ target / target := Nat.div_le_div_right h
        _ = 1 := Nat.div_self (by omega)
      have hmax : max 1 (xs.length / target) = 1 := by omega
      rw [hmax, keepEvery_one]
      simp [subsampleInMemory, h]
    · have h1 : 1 ≤ xs.length / target := hstep (by omega)
      have hmax : max 1 (xs.length / target) = xs.length / target := by omega
      rw [hmax]
      simp only [subsampleInMemory, if_neg h]
      exact (strideSample_eq_keepEvery _ h1 xs).symm

/-- Witness for C2: the theorem instantiated at a ten-row dataset with
target 3 and chunk size 4 (step 3; rows 0, 3, 6, 9 kept on both paths). -/
theorem claim_C2_witness :
    ((1 : ℕ) ≤ 3 ∧ (1 : ℕ) ≤ 4) ∧
    ((c2list.length ≤ 3 → subsampleInMemory c2list 3 = (c2list, 1)) ∧
     (3 < c2list.length →
       (subsampleInMemory c2list 3).2 = c2list.length / 3 ∧
       (subsampleInMemory c2list 3).1 = keepEvery (c2list.length / 3) 0 c2list) ∧
     chunkedSample c2list 3 4 = (subsampleInMemory c2list 3).1) :=
  ⟨⟨by decide, by decide⟩, claim_C2 c2list 3 4 (by decide) (by decide)⟩

/-- C6 counterexample: with beginning cut 5 and ending cut 2 (crossed cuts,
both legal viz-domain indices mapped by step 1), the claim mandates the empty
slice `[5, 2)`, but the code computes the negative relative end `2 - 5 = -3`
and `iloc[:-3]` keeps the two rows 5 and 6 — not the empty interval. -/
theorem claim_C6_counterexample :
    resolveFullIdx c6full.length c6full.length (some 5) none = some 5 ∧
    resolveFullIdx c6full.length c6full.length (some 2) none = some 2 ∧
    applyCuts c6full (some 5) (some 2) = .ok [5, 6] ∧
    sliceHalfOpen c6full 5 2 = [] := by
  refine ⟨rfl, rfl, rfl, rfl⟩

/-- C6 (amended): provided the beginning cut, when present, lies inside the
dataset, the dataset is nonempty whenever an ending cut is applied, and the
beginning index does not exceed the ending index when both are present, the
trimmed dataset equals exactly the canonical rows in `[begin, end)`; an
absent beginning means the dataset start, an absent ending the dataset
end. -/
theorem claim_C6_amended (full : List α) (b e : Option ℕ)
    (hb : ∀ i, b = some i → i < full.length)
    (hne : e.isSome → full ≠ [])
    (hbe : ∀ i j, b = some i → e = some j → i ≤ j) :
    applyCuts full b e = .ok (sliceHalfOpen full (b.getD 0) (e.getD full.length)) := by
  cases b with
  | none =>
    cases e with
    | none =>
      simp [applyCuts, sliceHalfOpen, List.take_of_length_le]
    | some j =>
      have hfull : full ≠ [] := hne (by simp)
      cases full with
      | nil => exact absurd rfl hfull
      | cons y ys =>
        simp only [applyCuts, sliceHalfOpen, pyTakeInt, Option.getD_none,
          Option.getD_some, List.drop_zero]
        rw [if_pos (by omega)]
        simp
  | some i =>
    have hi : i < full.length := hb i rfl
    cases e with
    | none =>
      simp only [applyCuts, sliceHalfOpen, Option.getD_some]
      rw [List.take_of_length_le (by simp [List.length_drop])]
    | some j =>
      have hij : i ≤ j := hbe i j rfl rfl
      have hdr : full.drop i ≠ [] := by
        have hp : 0 < (full.drop i).length := by
          simp only [List.length_drop]; omega
        exact List.ne_nil_of_length_pos hp
      cases ht : full.drop i with
      | nil => exact absurd ht hdr
      | cons y ys =>
        simp only [applyCuts, ht, sliceHalfOpen, pyTakeInt, Option.getD_some]
        rw [if_pos (by omega)]
        rw [← ht]
        have htn : ((j : ℤ) - (i : ℤ)).toNat = j - i := by omega
        rw [htn]

/-- Witness for C6 (amended) at ordered cuts 2 and 5 on the ten-row dataset:
the trimmed output is exactly rows `[2, 5)`. -/
theorem claim_C6_amended_witness :
    2 < c6full.length ∧ applyCuts c6full (some 2) (some 5) = .ok [2, 3, 4] := by
  refine ⟨by decide, ?_⟩
  have h := claim_C6_amended c6full (some 2) (some 5)
    (fun i hi => by cases hi; decide)
    (fun _ => by decide)
    (fun i j hi hj => by cases hi; cases hj; decide)
  have hs : sliceHalfOpen c6full ((some 2).getD 0) ((some 5).getD c6full.length)
      = [2, 3, 4] := by decide
  rw [hs] at h
  exact h

theorem keepEvery_sublist (step r : ℕ) (xs : List α) :
    (keepEvery step r xs).Sublist xs := by
  induction xs generalizing r with
  | nil => simp [keepEvery]
  | cons x xs ih =>
    by_cases h : r % step = 0
    · simpa [keepEvery, h] using (ih (r + 1)).cons₂ x
    · simp only [keepEvery, if_neg h, List.nil_append]
      exact (ih (r + 1)).cons x

/-- C10: when the visualization sample is the stride decimation of the same
canonical dataset with some step `s ≥ 1` and the subsample step is recomputed
as `len(full) // len(viz)`, every mapped cut index `viz_index * step` with
`viz_index < len(viz)` is strictly below the canonical length; hence the
beginning-side slice is non-empty and the first-row index lookup used to
apply the ending cut cannot fail — the error branch of `applyCuts` is
unreachable under this precondition (it needs a stale visualization sample
not obtained by decimating the same dataset). -/
theorem claim_C10 (full : List α) (s : ℕ) (hs : 1 ≤ s) (hne : full ≠ [])
    (vb : ℕ) (hvb : vb < (strideSample full s).length) (e : Option ℕ) :
    vb * (full.length / (strideSample full s).length) < full.length ∧
    full.drop (vb * (full.length / (strideSample full s).length)) ≠ [] ∧
    ∃ rows, applyCuts full
      (some (vb * (full.length / (strideSample full s).length))) e = .ok rows := by
  have hLle : (strideSample full s).length ≤ full.length := by
    rw [strideSample_eq_keepEvery s hs full]
    exact (keepEvery_sublist s 0 full).length_le
  have hnpos : 0 < full.length := List.length_pos.mpr hne
  have hL1 : 1 ≤ (strideSample full s).length := by omega
  have hd1 : 1 ≤ full.length / (strideSample full s).length :=
    (Nat.one_le_div_iff (by omega)).mpr hLle
  have hmul : (strideSample full s).length
      * (full.length / (strideSample full s).length) ≤ full.length := by
    rw [Nat.mul_comm]
    exact Nat.div_mul_le_self full.length (strideSample full s).length
  have key : vb * (full.length / (strideSample full s).length) < full.length := by
    have h1 : vb * (full.length / (strideSample full s).length)
        ≤ ((strideSample full s).length - 1)
          * (full.length / (strideSample full s).length) :=
      Nat.mul_le_mul_right _ (by omega)
    have h2 : ((strideSample full s).length - 1)
          * (full.length / (strideSample full s).length)
        = (strideSample full s).length
            * (full.length / (strideSample full s).length)
          - full.length / (strideSample full s).length := by
      rw [Nat.sub_mul, Nat.one_mul]
    omega
  have hdrop : full.drop (vb * (full.length / (strideSample full s).length)) ≠ [] := by
    apply List.ne_nil_of_length_pos
    simp only [List.length_drop]
    omega
  refine ⟨key, hdrop, ?_⟩
  cases e with
  | none => exact ⟨_, rfl⟩
  | some j =>
    cases ht : full.drop (vb * (full.length / (strideSample full s).length)) with
    | nil => exact absurd ht hdrop
    | cons y ys =>
      cases hac : applyCuts full
          (some (vb * (full.length / (strideSample full s).length))) (some j) with
      | ok rows => exact ⟨rows, rfl⟩
      | error msg =>
        simp only [applyCuts, ht] at hac
        exact absurd hac (by simp)

/-- Witness for C10: the ten-row dataset decimated with step 3 has 4 sample
rows; the recomputed step is `10 / 4 = 2`, viz index 3 maps to full index 6,
and the trim succeeds even with a crossed ending cut present. -/
theorem claim_C10_witness :
    (1 ≤ 3 ∧ c6full ≠ [] ∧ 3 < (strideSample c6full 3).length) ∧
    (3 * (c6full.length / (strideSample c6full 3).length) < c6full.length ∧
     c6full.drop (3 * (c6full.length / (strideSample c6full 3).length)) ≠ [] ∧
     ∃ rows, applyCuts c6full
       (some (3 * (c6full.length / (strideSample c6full 3).length)))
       (some 0) = .ok rows) :=
  ⟨⟨by decide, by decide, by decide⟩,
   claim_C10 c6full 3 (by decide) (by decide) 3 (by decide) (some 0)⟩

theorem sum_map_sub_const (rows : List α) (f : α → ℚ) (c : ℚ) :
    (rows.map (fun r => f r - c)).sum = (rows.map f).sum - rows.length * c := by
  induction rows with
  | nil => simp
  | cons x xs ih =>
    simp only [List.map_cons, List.sum_cons, ih, List.length_cons]
    push_cast
    ring

/-- C9: for every non-empty trimmed dataset, zero-mean normalization
subtracts the single scalar `avg_depth_full_rec` (the mean of all pressures)
from every pressure, so the mean of the output pressures is exactly zero in
exact arithmetic, while every timestamp and reading number is unchanged. -/
theorem claim_C9 (rows : List ZRow) (h : rows ≠ []) :
    ((zeroMeanData rows).map ZRow.pressure).sum / (zeroMeanData rows).length = 0 ∧
    (zeroMeanData rows).map ZRow.ts = rows.map ZRow.ts ∧
    (zeroMeanData rows).map ZRow.reading = rows.map ZRow.reading := by
  have hn : (rows.length : ℚ) ≠ 0 := by
    have := List.length_pos.mpr h
    exact_mod_cast Nat.pos_iff_ne_zero.mp this
  refine ⟨?_, ?_, ?_⟩
  · have hmap : (zeroMeanData rows).map ZRow.pressure
        = rows.map (fun r => r.pressure - avgDepthFullRec rows) := by
      simp [zeroMeanData]
    rw [hmap, sum_map_sub_const rows ZRow.pressure (avgDepthFullRec rows)]
    unfold avgDepthFullRec
    rw [mul_comm, div_mul_cancel₀ _ hn, sub_self, zero_div]
  · simp [zeroMeanData]
  · simp [zeroMeanData]

/-- Witness for C9: a concrete two-row trimmed dataset with pressures 3 and 7
(mean 5); after normalization the pressure mean is zero and timestamps and
reading numbers are untouched. -/
theorem claim_C9_witness :
    ([⟨0, 3, 1⟩, ⟨125, 7, 1⟩] : List ZRow) ≠ [] ∧
    (((zeroMeanData [⟨0, 3, 1⟩, ⟨125, 7, 1⟩]).map ZRow.pressure).sum
        / (zeroMeanData [⟨0, 3, 1⟩, ⟨125, 7, 1⟩]).length = 0 ∧
     (zeroMeanData [⟨0, 3, 1⟩, ⟨125, 7, 1⟩]).map ZRow.ts
        = ([⟨0, 3, 1⟩, ⟨125, 7, 1⟩] : List ZRow).map ZRow.ts ∧
     (zeroMeanData [⟨0, 3, 1⟩, ⟨125, 7, 1⟩]).map ZRow.reading
        = ([⟨0, 3, 1⟩, ⟨125, 7, 1⟩] : List ZRow).map ZRow.reading) :=
  ⟨by decide, claim_C9 [⟨0, 3, 1⟩, ⟨125, 7, 1⟩] (by decide)⟩

theorem assembleData_length (d : List FloatVal) (freq : ℕ) (h : 0 < freq) :
    (assembleData d freq).length = d.length / (freq * 1200) * (freq * 1200) := by
  unfold assembleData dateRangeQ
  have hle : d.length / (freq * 1200) * (freq * 1200) ≤ d.length :=
    Nat.div_mul_le_self _ _
  have hrl : ((List.range (d.length / (freq * 1200))).flatMap
      (fun j => List.replicate (freq * 1200) (j + 1))).length
      = d.length / (freq * 1200) * (freq * 1200) := by
    rw [List.flatMap, List.length_flatten, List.map_map]
    have hmc : (List.length ∘ fun j => List.replicate (freq * 1200) (j + 1))
        = fun _ => freq * 1200 := by
      funext j
      simp
    rw [hmc]
    have hrep : (List.range (d.length / (freq * 1200))).map (fun _ => freq * 1200)
        = List.replicate (d.length / (freq * 1200)) (freq * 1200) := by
      rw [List.eq_replicate_iff]
      constructor
      · simp
      · intro b hb
        rcases List.mem_map.mp hb with ⟨a, _, rfl⟩
        rfl
    rw [hrep, List.sum_replicate, smul_eq_mul]
  simp only [List.length_zipWith, List.length_zip, List.length_map, List.length_range,
    List.length_take, hrl]
  omega

/-- C1: for every ingestion run over any list of raw sample arrays
(concatenated in input order) and any positive sensor frequency, the
assembled canonical dataset has exactly
`floor(total_raw_samples / points_per_reading) * points_per_reading` rows,
where `points_per_reading = sensor_frequency * 1200`; the trailing partial
window is dropped. -/
theorem claim_C1 (files : List (List FloatVal)) (freq : ℕ) (h : 0 < freq) :
    (assembleData files.flatten freq).length
      = files.flatten.length / (freq * 1200) * (freq * 1200) :=
  assembleData_length files.flatten freq h

/-- Witness for C1: 19,200 samples at 8 Hz give exactly 19,200 rows (two
whole readings of 9,600), and 200 samples at 8 Hz give 0 rows. -/
theorem claim_C1_witness :
    0 < 8 ∧
    (assembleData ([List.replicate 19200 (FloatVal.val 1)] : List (List FloatVal)).flatten 8).length
      = 19200 ∧
    (assembleData ([List.replicate 200 (FloatVal.val 1)] : List (List FloatVal)).flatten 8).length
      = 0 := by
  refine ⟨by decide, ?_, ?_⟩
  · rw [claim_C1 [List.replicate 19200 (FloatVal.val 1)] 8 (by decide)]
    norm_num [List.flatten_cons, List.flatten_nil, List.append_nil, List.length_replicate]
  · rw [claim_C1 [List.replicate 200 (FloatVal.val 1)] 8 (by decide)]
    norm_num [List.flatten_cons, List.flatten_nil, List.append_nil, List.length_replicate]

theorem assembleData_ts (d : List FloatVal) (freq : ℕ) (k : ℕ)
    (hk : k < (assembleData d freq).length) :
    ((assembleData d freq).get ⟨k, hk⟩).ts = (k : ℚ) * (1000 / (freq : ℚ)) := by
  have hk' := hk
  simp only [assembleData, dateRangeQ] at hk' ⊢
  simp only [List.get_eq_getElem, List.getElem_zipWith, List.getElem_zip,
    List.getElem_map, List.getElem_range]

/-- C7: in the assembled canonical dataset, consecutive timestamps differ by
exactly `1000/sensor_frequency_hz` milliseconds for every consecutive pair,
so the timestamp axis is a strictly increasing arithmetic sequence. -/
theorem claim_C7 (d : List FloatVal) (freq : ℕ) (h : 0 < freq) (i : ℕ)
    (hi : i + 1 < (assembleData d freq).length) :
    ((assembleData d freq).get ⟨i + 1, hi⟩).ts
        - ((assembleData d freq).get ⟨i, Nat.lt_of_succ_lt hi⟩).ts
      = 1000 / (freq : ℚ) ∧
    ((assembleData d freq).get ⟨i, Nat.lt_of_succ_lt hi⟩).ts
      < ((assembleData d freq).get ⟨i + 1, hi⟩).ts := by
  have h1 := assembleData_ts d freq (i + 1) hi
  have h0 := assembleData_ts d freq i (Nat.lt_of_succ_lt hi)
  have hpos : (0 : ℚ) < 1000 / (freq : ℚ) := by
    apply div_pos (by norm_num)
    exact_mod_cast h
  constructor
  · rw [h1, h0]
    push_cast
    ring
  · rw [h1, h0]
    have hlt : (i : ℚ) < ((i + 1 : ℕ) : ℚ) := by push_cast; linarith
    exact mul_lt_mul_of_pos_right hlt hpos

theorem c7len : 0 + 1 < (assembleData c7data 1).length := by
  rw [assembleData_length c7data 1 (by decide)]
  simp only [c7data, List.length_replicate]
  norm_num

/-- Witness for C7: at 1 Hz the first two timestamps of the assembled
dataset differ by exactly 1000 ms and increase. -/
theorem claim_C7_witness :
    0 < 1 ∧
    (((assembleData c7data 1).get ⟨0 + 1, c7len⟩).ts
        - ((assembleData c7data 1).get ⟨0, Nat.lt_of_succ_lt c7len⟩).ts
      = 1000 / ((1 : ℕ) : ℚ) ∧
     ((assembleData c7data 1).get ⟨0, Nat.lt_of_succ_lt c7len⟩).ts
        < ((assembleData c7data 1).get ⟨0 + 1, c7len⟩).ts) :=
  ⟨by decide, claim_C7 c7data 1 (by decide) 0 c7len⟩

unseal Rat.add Rat.mul Rat.inv Rat.sub in
/-- C5: the claim says a comma-decimal text file is normalized and yields
the same finite array as its dot-decimal equivalent, never NaN placeholders.
On the code, `np.genfromtxt` does not raise on the line `1,5` — it fills
NaN — so the comma-replacing fallback never runs: the comma file reads as
`[nan]` while its dot-decimal equivalent reads as `[1.5]`. -/
theorem claim_C5_code_eval :
    readDataFileE (.text ["1,5"]) = .ok [FloatVal.nan] ∧
    readDataFileE (.text ["1.5"]) = .ok [FloatVal.val (mkRat 3 2)] := by
  constructor <;> rfl

/-- C3: the claim says that when the header date lines fail the strict
pattern, parsing yields None with a warning and the run still produces a
canonical dataset.  On the code the parse does yield None with a warning,
but the run then crashes at `datetime.combine(None, time())`: it ends in
`finished(False, None)` and produces no dataset. -/
theorem claim_C3_code_eval :
    (readDates c3info).1 = none ∧ (readDates c3info).2.2 = true ∧
    (runEmbed c3info [c3file] (fun _ => false)).2
      = .failure "combine() argument 1 must be a date, not NoneType" := by
  refine ⟨rfl, rfl, rfl⟩

/-- C8 counterexample: a run over one `.csv` file fails in the loading loop;
the handler emits percentage 0 after 5 and 10 have already been emitted, so
the percentage stream `[5, 10, 0]` of this failing run is not
non-decreasing. -/
theorem claim_C8_counterexample :
    ((runEmbed [] [RawFile.other ".csv"] (fun _ => false)).1.map Prod.fst
      = [5, 10, 0]) ∧
    ¬ List.Chain' (· ≤ ·)
        ((runEmbed [] [RawFile.other ".csv"] (fun _ => false)).1.map Prod.fst) := by
  have he : (runEmbed [] [RawFile.other ".csv"] (fun _ => false)).1.map Prod.fst
      = [5, 10, 0] := rfl
  refine ⟨he, ?_⟩
  rw [he]
  intro h
  rcases List.chain'_cons.mp h with ⟨_, h2⟩
  rcases List.chain'_cons.mp h2 with ⟨h3, _⟩
  omega

theorem loadLoop_ok_trace (stop : ℕ → Bool) (k : ℕ) (fs : List RawFile) :
    ∀ (i : ℕ) (t : List (ℕ × String)) (ds : List (List FloatVal)),
      loadLoop stop k fs i = .ok t ds →
      t.map Prod.fst = (List.range' (i + 1) fs.length).map (fun j => 10 + 30 * j / k) := by
  induction fs with
  | nil =>
    intro i t ds h
    cases hstop : stop i with
    | true => simp [loadLoop, hstop] at h
    | false =>
      simp only [loadLoop, hstop, Bool.false_eq_true, if_false] at h
      obtain ⟨rfl, rfl⟩ := h
      simp
  | cons f fs ih =>
    intro i t ds h
    cases hstop : stop i with
    | true => simp [loadLoop, hstop] at h
    | false =>
      cases hrd : readDataFileE f with
      | error m => simp [loadLoop, hstop, hrd] at h
      | ok d =>
        cases hrec : loadLoop stop k fs (i + 1) with
        | fail t' m => simp [loadLoop, hstop, hrd, hrec] at h
        | stopped t' => simp [loadLoop, hstop, hrd, hrec] at h
        | ok t' ds' =>
          simp only [loadLoop, hstop, Bool.false_eq_true, if_false, hrd, hrec] at h
          obtain ⟨rfl, rfl⟩ := h
          rw [List.map_cons, ih (i + 1) t' ds' hrec, List.length_cons,
            List.range'_succ, List.map_cons]

theorem loadLoop_stopped_trace (stop : ℕ → Bool) (k : ℕ) (fs : List RawFile) :
    ∀ (i : ℕ) (t : List (ℕ × String)),
      loadLoop stop k fs i = .stopped t →
      ∃ m, m ≤ fs.length ∧
        t.map Prod.fst = (List.range' (i + 1) m).map (fun j => 10 + 30 * j / k) := by
  induction fs with
  | nil =>
    intro i t h
    cases hstop : stop i with
    | true =>
      simp only [loadLoop, hstop, if_true, LoadRes.stopped.injEq] at h
      exact ⟨0, Nat.le_refl 0, by rw [← h]; simp⟩
    | false => simp [loadLoop, hstop] at h
  | cons f fs ih =>
    intro i t h
    cases hstop : stop i with
    | true =>
      simp only [loadLoop, hstop, if_true, LoadRes.stopped.injEq] at h
      exact ⟨0, Nat.zero_le _, by rw [← h]; simp⟩
    | false =>
      cases hrd : readDataFileE f with
      | error msg => simp [loadLoop, hstop, hrd] at h
      | ok d =>
        cases hrec : loadLoop stop k fs (i + 1) with
        | ok t' ds' => simp [loadLoop, hstop, hrd, hrec] at h
        | fail t' msg => simp [loadLoop, hstop, hrd, hrec] at h
        | stopped t' =>
          simp only [loadLoop, hstop, Bool.false_eq_true, if_false, hrd, hrec,
            LoadRes.stopped.injEq] at h
          obtain ⟨m, hm, htr⟩ := ih (i + 1) t' hrec
          refine ⟨m + 1, by simp; omega, ?_⟩
          rw [← h, List.map_cons, htr, List.range'_succ, List.map_cons]

theorem progress_pct_bounds (k m : ℕ) (hm : m ≤ k) :
    ∀ y ∈ (List.range' 1 m).map (fun j => 10 + 30 * j / k), 10 ≤ y ∧ y ≤ 40 := by
  intro y hy
  rcases List.mem_map.mp hy with ⟨j, hj, rfl⟩
  rcases List.mem_range'_1.mp hj with ⟨hj1, hj2⟩
  refine ⟨Nat.le_add_right 10 _, ?_⟩
  have hk : 1 ≤ k := by omega
  have h30 : 30 * j ≤ 30 * k := Nat.mul_le_mul_left _ (by omega)
  have hdd : 30 * j / k ≤ 30 * k / k := Nat.div_le_div_right h30
  have hc : 30 * k / k = 30 := Nat.mul_div_cancel 30 (by omega)
  have h40 : 30 * j / k ≤ 30 := le_trans hdd (le_of_eq hc)
  exact le_trans (Nat.add_le_add_left h40 10) (by norm_num)

theorem progress_pct_pairwise (k m : ℕ) :
    List.Pairwise (· ≤ ·) ((List.range' 1 m).map (fun j => 10 + 30 * j / k)) :=
  (List.pairwise_lt_range' 1 m).map _
    (fun a b hab =>
      Nat.add_le_add_left
        (Nat.div_le_div_right (Nat.mul_le_mul_left 30 (Nat.le_of_lt hab))) 10)

/-- C8 (amended): on every run that does not end in failure and emits no
date-parse warning — successful and cancelled runs alike — the progress
percentages are non-decreasing; a date-parse warning and a failure are each
reported as a percentage-0 event, which may be lower than earlier events of
the same run. -/
theorem claim_C8_amended (infoLines : List String) (files : List RawFile)
    (stop : ℕ → Bool)
    (hs : isFailure (runEmbed infoLines files stop).2 = false)
    (hw : (readDates infoLines).2.2 = false) :
    List.Chain' (· ≤ ·) ((runEmbed infoLines files stop).1.map Prod.fst) := by
  simp only [runEmbed] at hs ⊢
  cases hload : loadLoop stop files.length files 0 with
  | fail t m => rw [hload] at hs; simp [isFailure] at hs
  | stopped t =>
    dsimp only
    rw [hw]
    obtain ⟨m, hm, htr⟩ := loadLoop_stopped_trace stop files.length files 0 t hload
    simp only [Bool.false_eq_true, if_false, List.nil_append, List.map_append,
      List.map_cons]
    rw [List.chain'_iff_pairwise, htr]
    simp only [Nat.zero_add, List.append_eq, List.map_nil, List.nil_append,
      List.append_nil]
    refine List.Pairwise.cons ?_ (List.Pairwise.cons ?_ ?_)
    · intro y hy
      rcases List.mem_cons.mp hy with rfl | hy2
      · omega
      · have := progress_pct_bounds files.length m hm y hy2
        omega
    · intro y hy
      exact (progress_pct_bounds files.length m hm y hy).1
    · exact progress_pct_pairwise files.length m
  | ok t ds =>
    rw [hload] at hs
    dsimp only at hs ⊢
    by_cases h0 : files.length = 0
    · rw [if_pos h0] at hs; simp [isFailure] at hs
    · rw [if_neg h0] at hs ⊢
      by_cases hppr : readFreq infoLines * 1200 = 0
      · rw [if_pos hppr] at hs; simp [isFailure] at hs
      · rw [if_neg hppr] at hs ⊢
        cases hd : (readDates infoLines).1 with
        | none => rw [hd] at hs; simp [isFailure] at hs
        | some dval =>
          dsimp only at hs ⊢
          clear hs
          rw [hw]
          have htr := loadLoop_ok_trace stop files.length files 0 t ds hload
          simp only [Bool.false_eq_true, if_false, List.nil_append, List.map_append,
            List.map_cons, tailEvents]
          rw [List.chain'_iff_pairwise, htr]
          simp only [Nat.zero_add, List.append_eq, List.map_nil, List.nil_append,
            List.append_nil]
          have hfb := progress_pct_bounds files.length files.length (Nat.le_refl _)
          refine List.Pairwise.cons ?_ (List.Pairwise.cons ?_ ?_)
          · intro y hy
            rcases List.mem_cons.mp hy with rfl | hy2
            · omega
            rcases List.mem_append.mp hy2 with hyL | hyT
            · have := hfb y hyL
              omega
            · fin_cases hyT <;> omega
          · intro y hy
            rcases List.mem_append.mp hy with hyL | hyT
            · exact (hfb y hyL).1
            · fin_cases hyT <;> omega
          · refine List.pairwise_append.mpr ⟨?_, ?_, ?_⟩
            · exact progress_pct_pairwise files.length files.length
            · simp [List.pairwise_cons]
            · intro x hxL y hyT
              have := (hfb x hxL).2
              fin_cases hyT <;> omega

/-- Witness for C8 (amended): a successful warning-free run over one
single-sample binary file has the non-decreasing percentage stream
`[5, 10, 40, 45, 50, 60, 70, 85, 90, 100]`, and a cancelled warning-free
run over the same input — the stop flag raised from the start — has the
non-decreasing stream `[5, 10]`. -/
theorem claim_C8_amended_witness :
    ((runEmbed c8info [RawFile.npy [mkRat 5 2]] (fun _ => false)).2
        = Outcome.success [] ∧
     (readDates c8info).2.2 = false ∧
     List.Chain' (· ≤ ·)
       ((runEmbed c8info [RawFile.npy [mkRat 5 2]] (fun _ => false)).1.map
         Prod.fst)) ∧
    ((runEmbed c8info [RawFile.npy [mkRat 5 2]] (fun _ => true)).2
        = Outcome.cancelled ∧
     List.Chain' (· ≤ ·)
       ((runEmbed c8info [RawFile.npy [mkRat 5 2]] (fun _ => true)).1.map
         Prod.fst)) :=
  ⟨⟨rfl, rfl,
    claim_C8_amended c8info [RawFile.npy [mkRat 5 2]] (fun _ => false) rfl rfl⟩,
   ⟨rfl,
    claim_C8_amended c8info [RawFile.npy [mkRat 5 2]] (fun _ => true) rfl rfl⟩⟩

set_option maxRecDepth 100000 in
unseal Rat.add Rat.mul Rat.inv Rat.sub in
/-- C4 counterexample: on `p4cex` the claim hypotheses hold (102 ≥ 100
samples, the max-gradient trigger fires) and the claim formula mandates a
beginning leg of `[0, 36)` — in particular `mask[10] = true` — but the code
marks only `[0, 5)`: the settle scan excludes both `j+100` and the window
end, and when it finds nothing `jump_end` defaults to `j` (= 5), not to
`j+100` capped at the window end; the margin is `int`, not `round`. -/
theorem claim_C4_counterexample :
    claimBeginEnd? p4cex 3 = some 36 ∧
    100 ≤ p4cex.length ∧
    (detectDivesQ p4cex 3).getD 10 false = false := by
  refine ⟨by decide, by decide, by decide⟩

theorem find?_range'_some (q : ℕ → Bool) :
    ∀ (n a x : ℕ), (List.range' a n).find? q = some x →
      a ≤ x ∧ x < a + n ∧ q x = true ∧ ∀ k, a ≤ k → k < x → q k = false := by
  intro n
  induction n with
  | zero => intro a x h; simp [List.range'] at h
  | succ m ih =>
    intro a x h
    rw [List.range'_succ] at h
    cases hqa : q a with
    | true =>
      rw [List.find?_cons_of_pos _ hqa] at h
      injection h with h
      subst h
      exact ⟨Nat.le_refl a, by omega, hqa, fun k hk1 hk2 => absurd hk1 (by omega)⟩
    | false =>
      rw [List.find?_cons_of_neg _ (by simp [hqa])] at h
      obtain ⟨h1, h2, h3, h4⟩ := ih (a + 1) x h
      refine ⟨by omega, by omega, h3, fun k hk1 hk2 => ?_⟩
      rcases Nat.eq_or_lt_of_le hk1 with rfl | hlt
      · exact hqa
      · exact h4 k hlt hk2

theorem find?_range'_none (q : ℕ → Bool) (a n : ℕ)
    (h : (List.range' a n).find? q = none) :
    ∀ k, a ≤ k → k < a + n → q k = false := by
  intro k hk1 hk2
  have hm := List.find?_eq_none.mp h k (List.mem_range'_1.mpr ⟨hk1, by omega⟩)
  simpa using hm

/-- C4 (amended): for at least 100 samples, whenever the max-gradient
trigger fires (`beginLegEnd? = some e`), the marked extent `e` is the
settle-scan result extended by `floor(0.1 * end)` and capped at `n-1`,
where the settle scan finds the first index strictly between `j` and
`min(j+100, search_end)` — both bounds excluded — whose gradient has
settled, and defaults to `j` itself when no such index exists; the mask is
true on all of `[0, e)`. -/
theorem claim_C4_amended (p : List ℚ) (s : ℚ) (h100 : 100 ≤ p.length) (e : ℕ)
    (he : beginLegEnd? p s = some e) :
    e = min (beginSettleEnd p + beginSettleEnd p / 10) (p.length - 1) ∧
    (beginSettleEnd p ≠ beginJumpIdx p →
      beginJumpIdx p < beginSettleEnd p ∧
      beginSettleEnd p < min (beginJumpIdx p + 100) (beginSearchEnd p) ∧
      settledB (gradientQ p) (popVarQ (gradientQ p)) (beginSettleEnd p) = true ∧
      ∀ i, beginJumpIdx p < i → i < beginSettleEnd p →
        settledB (gradientQ p) (popVarQ (gradientQ p)) i = false) ∧
    (beginSettleEnd p = beginJumpIdx p →
      ∀ i, beginJumpIdx p < i → i < min (beginJumpIdx p + 100) (beginSearchEnd p) →
        settledB (gradientQ p) (popVarQ (gradientQ p)) i = false) ∧
    ∀ i, i < e → (detectDivesQ p s).getD i false = true := by
  have hee : e = min (beginSettleEnd p + beginSettleEnd p / 10) (p.length - 1) := by
    simp only [beginLegEnd?] at he
    split at he
    · injection he with he
      exact he.symm
    · exact Option.noConfusion he
  refine ⟨hee, ?_, ?_, ?_⟩
  · intro hne
    cases hfind : (List.range' (beginJumpIdx p + 1)
        (min (beginJumpIdx p + 100) (beginSearchEnd p) - (beginJumpIdx p + 1))).find?
        (settledB (gradientQ p) (popVarQ (gradientQ p))) with
    | none =>
      have hE : beginSettleEnd p = beginJumpIdx p := by
        unfold beginSettleEnd codeJumpEnd
        rw [hfind]
      exact absurd hE hne
    | some x =>
      obtain ⟨h1, h2, h3, h4⟩ := find?_range'_some _ _ _ _ hfind
      have hE : beginSettleEnd p = x := by
        unfold beginSettleEnd codeJumpEnd
        rw [hfind]
      refine ⟨by omega, by omega, by rw [hE]; exact h3, ?_⟩
      intro i hi1 hi2
      exact h4 i (by omega) (by omega)
  · intro heq
    cases hfind : (List.range' (beginJumpIdx p + 1)
        (min (beginJumpIdx p + 100) (beginSearchEnd p) - (beginJumpIdx p + 1))).find?
        (settledB (gradientQ p) (popVarQ (gradientQ p))) with
    | none =>
      intro i hi1 hi2
      exact find?_range'_none _ _ _ hfind i hi1 (by omega)
    | some x =>
      obtain ⟨h1, h2, h3, h4⟩ := find?_range'_some _ _ _ _ hfind
      have hE : beginSettleEnd p = x := by
        unfold beginSettleEnd codeJumpEnd
        rw [hfind]
      omega
  · intro i hi
    have hn : ¬ (p.length < 100) := by omega
    have hilt : i < p.length := by
      have hle : e ≤ p.length - 1 := by
        rw [hee]
        omega
      omega
    simp only [detectDivesQ, if_neg hn]
    rw [List.getD_eq_getElem?_getD, List.getElem?_map]
    simp [List.getElem?_range, hilt, he, hi]

set_option maxRecDepth 100000 in
unseal Rat.add Rat.mul Rat.inv Rat.sub in
/-- Witness for C4 (amended): on the trace `p4cex` with sensitivity 3 the
trigger fires with `beginLegEnd? = some 5`, and the amended characterization
holds there. -/
theorem claim_C4_amended_witness :
    (100 ≤ p4cex.length ∧ beginLegEnd? p4cex 3 = some 5) ∧
    (5 = min (beginSettleEnd p4cex + beginSettleEnd p4cex / 10) (p4cex.length - 1) ∧
     (beginSettleEnd p4cex ≠ beginJumpIdx p4cex →
       beginJumpIdx p4cex < beginSettleEnd p4cex ∧
       beginSettleEnd p4cex
           < min (beginJumpIdx p4cex + 100) (beginSearchEnd p4cex) ∧
       settledB (gradientQ p4cex) (popVarQ (gradientQ p4cex))
           (beginSettleEnd p4cex) = true ∧
       ∀ i, beginJumpIdx p4cex < i → i < beginSettleEnd p4cex →
         settledB (gradientQ p4cex) (popVarQ (gradientQ p4cex)) i = false) ∧
     (beginSettleEnd p4cex = beginJumpIdx p4cex →
       ∀ i, beginJumpIdx p4cex < i →
         i < min (beginJumpIdx p4cex + 100) (beginSearchEnd p4cex) →
         settledB (gradientQ p4cex) (popVarQ (gradientQ p4cex)) i = false) ∧
     ∀ i, i < 5 → (detectDivesQ p4cex 3).getD i false = true) :=
  ⟨⟨by decide, by decide⟩, claim_C4_amended p4cex 3 (by decide) 5 (by decide)⟩
